import Mathlib

/-!
Verification of the mining-share ecash wallet (vnprc/cdk) against its
natural-language specification.  The definitions below are a shallow
embedding of the Rust sources:

* `crates/cashu/src/nuts/nutXX.rs`         — quote states, wire types
* `crates/cdk/src/hashpool.rs`             — pubkey-indexed lookup types
* `crates/cdk/src/wallet/keysets.rs`       — keyset selection
* `crates/cdk/src/wallet/issue/issue_mining_share.rs`
* `crates/cdk/src/wallet/issue/batch.rs`
* `crates/cdk/src/wallet/mint.rs`

Machine integers (u32 counters, u64 amounts) are modelled as `Nat`; the
operations verified here never exercise overflow.  Elliptic-curve points
are modelled as elements of the additive group `ZMod 101` with generator
`1`, and the Fiat-Shamir hash as a fixed concrete function: the claims
below depend only on whether a DLEQ check is performed at all, never on
properties of secp256k1 itself.
-/

/-- Currency units (`cashu` crate, `CurrencyUnit`). -/
inductive CurrencyUnit where
  | sat
  | msat
  | usd
  | eur
  | custom (s : String)
deriving DecidableEq, Repr

/-- Payment methods (`cashu` crate, `PaymentMethod`). -/
inductive PaymentMethod where
  | bolt11
  | bolt12
  | miningShare
deriving DecidableEq, Repr

/-- Unified quote states, `QuoteState` in `crates/cashu/src/nuts/nutXX.rs`
(also used as `MintQuoteState` by the wallet). -/
inductive QuoteState where
  | unpaid
  | paid
  | pending
  | issued
deriving DecidableEq, Repr

/-- Errors of `crates/cashu/src/nuts/nutXX.rs` (`nutXX::Error`). -/
inductive NutXXError where
  | unknownState
  | amountOverflow
  | invalidAmountRequest
deriving DecidableEq, Repr

/-- The `Display` rendering of `QuoteState` (nutXX.rs, `impl fmt::Display`). -/
def QuoteState.display : QuoteState → String
  | .unpaid => "UNPAID"
  | .paid => "PAID"
  | .pending => "PENDING"
  | .issued => "ISSUED"

/-- `QuoteState::from_str` (nutXX.rs, `impl FromStr`): the four uppercase
strings parse, anything else is `UnknownState`. -/
def QuoteState.fromStr (state : String) : Except NutXXError QuoteState :=
  if state = "PENDING" then .ok .pending
  else if state = "PAID" then .ok .paid
  else if state = "UNPAID" then .ok .unpaid
  else if state = "ISSUED" then .ok .issued
  else .error .unknownState

/-- State filter for quote lookup, `MintQuoteStateFilter` in
`crates/cdk/src/hashpool.rs`. -/
inductive MintQuoteStateFilter where
  | all
  | onlyPaid
  | onlyUnpaid
  | onlyIssued
  | specific (s : QuoteState)
deriving DecidableEq, Repr

/-- `impl Default for MintQuoteStateFilter` (hashpool.rs line 22). -/
def MintQuoteStateFilter.defaultFilter : MintQuoteStateFilter := .onlyPaid

/-- Public keys are abstract; only identity matters for the claims. -/
abbrev PublicKey := Nat

/-- `PostMintQuoteLookupRequest` (hashpool.rs): pubkeys plus a state
filter that carries `#[serde(default)]`. -/
structure PostMintQuoteLookupRequest where
  pubkeys : List PublicKey
  state_filter : MintQuoteStateFilter
deriving DecidableEq, Repr

/-- Deserialization of `PostMintQuoteLookupRequest`: the `state_filter`
field is optional on the wire (`#[serde(default)]`); when absent, serde
substitutes `MintQuoteStateFilter::default()`. -/
def deserializePostMintQuoteLookupRequest (pubkeys : List PublicKey)
    (stateFilterField : Option MintQuoteStateFilter) : PostMintQuoteLookupRequest :=
  { pubkeys := pubkeys
    state_filter := stateFilterField.getD MintQuoteStateFilter.defaultFilter }

/-- Keyset metadata, `KeySetInfo` in cdk-common as used by
`crates/cdk/src/wallet/keysets.rs`.  Keyset ids are abstract `Nat`. -/
structure KeySetInfo where
  id : Nat
  active : Bool
  unit : CurrencyUnit
  input_fee_ppk : Nat
deriving DecidableEq, Repr

/-- Wallet-side errors (`cdk::wallet::Error` / `cdk::error::Error`).
Only the variants reached by the embedded operations are listed; the
`batch*` variants appear in the repository's error enum and are asserted
by its tests `crates/cdk/tests/wallet_batch_mint.rs`. -/
inductive WalletError where
  | amountOutofLimitRange (lo hi got : Nat)
  | unknownQuote
  | invalidPaymentMethod
  | unpaidQuote
  | preMintSecretsNotFound
  | mismatchedSignatureCount
  | unsupportedPaymentMethod
  | unsupportedUnit
  | amountUndefined
  | noActiveKeyset
  | amountKey
  | couldNotVerifyDleq
  | batchEmpty
  | batchSizeExceeded
  | batchPaymentMethodMismatch
  | batchCurrencyUnitMismatch
  | networkFailure
deriving DecidableEq, Repr

/-- Rust `Iterator::min_by_key` fold: keeps the accumulator unless the
next element's key is strictly smaller, hence returns the first element
attaining the minimum. -/
def minByFeeAux (acc : KeySetInfo) : List KeySetInfo → KeySetInfo
  | [] => acc
  | k :: ks => minByFeeAux (if k.input_fee_ppk < acc.input_fee_ppk then k else acc) ks

/-- `min_by_key(|key| key.input_fee_ppk)` over a list of keysets. -/
def minByFee : List KeySetInfo → Option KeySetInfo
  | [] => none
  | k :: ks => some (minByFeeAux k ks)

/-- The keysets considered by `get_active_mint_keyset_local`: the stored
keysets for the wallet's mint (or `[]` when none are stored), filtered to
active ones matching the wallet's unit (keysets.rs lines 117-129). -/
def activeLocalKeysets (stored : Option (List KeySetInfo))
    (walletUnit : CurrencyUnit) : List KeySetInfo :=
  match stored with
  | some keysets => keysets.filter (fun k => k.active && k.unit == walletUnit)
  | none => []

/-- `Wallet::get_active_mint_keyset_local` (keysets.rs lines 116-137):
filter stored keysets to active ones of the wallet's unit, then take
`min_by_key(input_fee_ppk)`, or fail with `NoActiveKeyset`. -/
def getActiveMintKeysetLocal (stored : Option (List KeySetInfo))
    (walletUnit : CurrencyUnit) : Except WalletError KeySetInfo :=
  match minByFee (activeLocalKeysets stored walletUnit) with
  | some k => .ok k
  | none => .error .noActiveKeyset

/-- Curve points, modelled as the additive group of `ZMod 101` with
generator `1`; scalar multiplication is field multiplication.  Modelled
from the spec: the claims never rely on secp256k1 structure. -/
abbrev Pt := ZMod 101

/-- DLEQ proof attached to a blind signature (nut12 `BlindSignatureDleq`,
fields `e` and `s`). -/
structure DleqProof where
  e : Nat
  s : Nat
deriving DecidableEq, Repr

/-- Blind signature `(amount, keyset_id, C_, optional DLEQ)` produced by
the mint (`cashu` crate, `BlindSignature`). -/
structure BlindSignature where
  amount : Nat
  keysetId : Nat
  c : Pt
  dleq : Option DleqProof
deriving DecidableEq, Repr

/-- DLEQ verification outcome (nut12 `Error` variants relevant here). -/
inductive DleqError where
  | missingDleqProof
  | invalidDleqProof
deriving DecidableEq, Repr

/-- Modelled from the spec: the Fiat-Shamir transcript hash
`e = H(R1, R2, K, C_)`; the nut12 implementation (SHA-256) is not under
`src/`, so a fixed injective-enough concrete function stands in for it. -/
def hashE (r1 r2 k c : Pt) : Nat :=
  (r1.val + 2 * r2.val + 3 * k.val + 5 * c.val) % 101

/-- Modelled from the spec: wallet-side DLEQ verification of a blind
signature against the amount-indexed public key `key` and the blinded
secret `B_` (`BlindSignature::verify_dleq`, nut12, not under `src/`):
`R1 = s·G − e·K`, `R2 = s·B_ − e·C_`, accept iff `H(R1,R2,K,C_) = e`;
a signature without a DLEQ proof yields `MissingDleqProof`. -/
def verifyDleq (key : Pt) (sig : BlindSignature) (blindedSecret : Pt) :
    Except DleqError Unit :=
  match sig.dleq with
  | none => .error .missingDleqProof
  | some d =>
      let r1 : Pt := (d.s : Pt) * 1 - (d.e : Pt) * key
      let r2 : Pt := (d.s : Pt) * blindedSecret - (d.e : Pt) * sig.c
      if hashE r1 r2 key sig.c = d.e then .ok () else .error .invalidDleqProof

/-- Forgets the DLEQ field of a blind signature. -/
def stripDleq (sig : BlindSignature) : BlindSignature :=
  { sig with dleq := none }

/-- Modelled from the spec: `Amount::split` — the canonical decomposition
of an amount into powers of two (`SplitTarget::default()` adds no extra
targets).  The `cashu` amount module is not under `src/`; only the list
and its length are used by the embedded operations. -/
def powSplit (amount : Nat) : List Nat :=
  (List.range 64).filterMap (fun i => if amount.testBit i then some (2 ^ i) else none)

/-- One pre-mint entry: the derivation counter it was derived at, its
amount, the derived secret and blinding factor, and the blinded message
point `B_`. -/
structure PreMint where
  amount : Nat
  counter : Nat
  secret : Nat
  r : Nat
  blindedSecret : Pt
deriving DecidableEq, Repr

/-- `PreMintSecrets`: an ordered batch of pre-mint entries tied to one
keyset, with the counter the derivation started at. -/
structure PreMintSecrets where
  keysetId : Nat
  count : Nat
  secrets : List PreMint
deriving DecidableEq, Repr

/-- Modelled from the spec: `PreMintSecrets::from_xpriv(keyset_id, count,
xpriv, amount, split_target)` (cashu crate, not under `src/`) derives one
secret per split denomination at consecutive counter values starting at
`count`; derivation is deterministic in `(keyset_id, counter)`. -/
def PreMintSecrets.fromXpriv (keysetId count amount : Nat) : PreMintSecrets :=
  { keysetId := keysetId
    count := count
    secrets := (List.range (powSplit amount).length).map (fun j =>
      { amount := (powSplit amount).getD j 0
        counter := count + j
        secret := Nat.pair keysetId (count + j)
        r := Nat.pair keysetId (count + j) + 1
        blindedSecret := ((Nat.pair keysetId (count + j) : Nat) : Pt) }) }

/-- The counter values a pre-mint batch occupies. -/
def PreMintSecrets.indices (pm : PreMintSecrets) : List Nat :=
  pm.secrets.map (·.counter)

/-- Blinded message `(amount, keyset_id, B_)` (`cashu` crate). -/
structure BlindedMessage where
  amount : Nat
  keysetId : Nat
  blindedSecret : Pt
deriving DecidableEq, Repr

/-- `PreMintSecrets::blinded_messages()`. -/
def PreMintSecrets.blindedMessages (pm : PreMintSecrets) : List BlindedMessage :=
  pm.secrets.map (fun s => { amount := s.amount, keysetId := pm.keysetId, blindedSecret := s.blindedSecret })

/-- Unblinded proof (`cashu` crate, `Proof`). -/
structure Proof where
  amount : Nat
  keysetId : Nat
  secret : Nat
  c : Pt
  witnessPresent : Bool
  dleq : Option DleqProof
deriving DecidableEq, Repr

/-- `MintRequest` (NUT-04 style): quote id, outputs, optional NUT-20
signature (presence only is relevant to the claims). -/
structure MintRequest where
  quote : String
  outputs : List BlindedMessage
  signaturePresent : Bool
deriving DecidableEq, Repr

/-- `MintResponse`: the blind signatures returned by the mint. -/
structure MintResponse where
  signatures : List BlindSignature
deriving DecidableEq, Repr

/-- Wallet-side `MintQuote` (`cdk_common::wallet::MintQuote` as used by
`issue_mining_share.rs` and `batch.rs`). -/
structure WalletMintQuote where
  id : String
  mintUrl : String
  paymentMethod : PaymentMethod
  amount : Option Nat
  unit : CurrencyUnit
  request : String
  state : QuoteState
  expiry : Nat
  secretKeyPresent : Bool
  amountIssued : Nat
  amountPaid : Nat
deriving DecidableEq, Repr

/-- Wallet-side `MintQuote` as it appears in `crates/cdk/src/wallet/mint.rs`
(`super::MintQuote`): an earlier shape without payment method or
paid/issued amounts. -/
structure WalletMintQuoteLegacy where
  id : String
  mintUrl : String
  amount : Nat
  unit : CurrencyUnit
  request : String
  state : QuoteState
  expiry : Nat
  secretKeyPresent : Bool
deriving DecidableEq, Repr

/-- `MintQuoteMiningShareRequest` (nutXX.rs / the variant with
`keyset_id` emitted by `issue_mining_share.rs`).  Header hashes are the
sha256 value read as a number; `0` is the all-zero hash. -/
structure MintQuoteMiningShareRequest where
  amount : Nat
  unit : CurrencyUnit
  headerHash : Nat
  description : Option String
  pubkey : Option PublicKey
  keysetId : Nat
deriving DecidableEq, Repr

/-- A lookup item returned by `lookup_mint_quotes_by_pubkeys`
(`MintQuoteLookupItem`, hashpool.rs). -/
structure MintQuoteLookupItem where
  pubkey : PublicKey
  quote : String
  method : PaymentMethod
  amount : Nat
  keysetId : Nat
deriving DecidableEq, Repr

/-- Record of one increment-and-derive event: the keyset, the number of
secrets requested, the counter before and after the atomic increment, and
the derived batch.  The wallet store keeps the history of these events so
that properties of every derivation performed during a run can be
stated. -/
structure DeriveEvent where
  keysetId : Nat
  n : Nat
  oldCounter : Nat
  newCounter : Nat
  premint : PreMintSecrets
deriving DecidableEq, Repr

/-- The wallet's local store (`WalletStore` of the spec; the sqlite and
memory drivers are out of scope).  `deriveLog` and `quoteLog` record the
history of derivations and of added quotes; current state is the rest. -/
structure LocalStore where
  mintKeysets : Option (List KeySetInfo)
  counters : Nat → Nat
  quotes : List (String × WalletMintQuote)
  legacyQuotes : List (String × WalletMintQuoteLegacy)
  premints : List (String × PreMintSecrets)
  proofs : List Proof
  txCount : Nat
  deriveLog : List DeriveEvent
  quoteLog : List WalletMintQuote

/-- Modelled from the spec: `increment_keyset_counter(id, n)` — the store
atomically adds `n` to the per-keyset counter and returns the counter
*after* the increment. -/
def LocalStore.incrementKeysetCounter (s : LocalStore) (keysetId n : Nat) :
    Nat × LocalStore :=
  let newCounter := s.counters keysetId + n
  (newCounter,
    { s with counters := fun i => if i = keysetId then newCounter else s.counters i })

/-- `add_mint_quote`: upserts the quote under its id (and records it in
the history log). -/
def LocalStore.addMintQuote (s : LocalStore) (q : WalletMintQuote) : LocalStore :=
  { s with
    quotes := (q.id, q) :: s.quotes.filter (fun p => p.1 ≠ q.id)
    quoteLog := s.quoteLog ++ [q] }

/-- `get_mint_quote`. -/
def LocalStore.getMintQuote (s : LocalStore) (quoteId : String) :
    Option WalletMintQuote :=
  (s.quotes.find? (fun p => p.1 = quoteId)).map (·.2)

/-- `remove_mint_quote`. -/
def LocalStore.removeMintQuote (s : LocalStore) (quoteId : String) : LocalStore :=
  { s with quotes := s.quotes.filter (fun p => p.1 ≠ quoteId) }

/-- `add_premint_secrets`. -/
def LocalStore.addPremintSecrets (s : LocalStore) (quoteId : String)
    (pm : PreMintSecrets) : LocalStore :=
  { s with premints := (quoteId, pm) :: s.premints.filter (fun p => p.1 ≠ quoteId) }

/-- `get_premint_secrets`. -/
def LocalStore.getPremintSecrets (s : LocalStore) (quoteId : String) :
    Option PreMintSecrets :=
  (s.premints.find? (fun p => p.1 = quoteId)).map (·.2)

/-- `remove_premint_secrets`. -/
def LocalStore.removePremintSecrets (s : LocalStore) (quoteId : String) : LocalStore :=
  { s with premints := s.premints.filter (fun p => p.1 ≠ quoteId) }

/-- `update_proofs(add, [])`: stores the new proofs. -/
def LocalStore.addProofs (s : LocalStore) (ps : List Proof) : LocalStore :=
  { s with proofs := s.proofs ++ ps }

/-- Appends one derive event to the history. -/
def LocalStore.logDerive (s : LocalStore) (e : DeriveEvent) : LocalStore :=
  { s with deriveLog := s.deriveLog ++ [e] }

/-- `Wallet::mint_mining_share_quote` (issue_mining_share.rs lines 25-110).
The wallet's unit and mint url are passed explicitly; `headerHash` is the
sha256 header hash as a number and its string rendering stands in for the
hex `to_string`.  Validation admits `1..=256`; the quote is persisted
already `Paid` with `expiry = 0` and `amount_paid = amount`; the keyset
counter is incremented by the number of split denominations before the
secrets are derived at `new_count - num_secrets`. -/
def mintMiningShareQuote (store : LocalStore) (walletUnit : CurrencyUnit)
    (mintUrl : String) (amount headerHash : Nat) :
    Except WalletError MintQuoteMiningShareRequest × LocalStore :=
  if amount = 0 ∨ 256 < amount then
    (.error (.amountOutofLimitRange 1 256 amount), store)
  else
    let quote : WalletMintQuote :=
      { id := toString headerHash
        mintUrl := mintUrl
        paymentMethod := .miningShare
        amount := some amount
        unit := walletUnit
        request := toString headerHash
        state := .paid
        expiry := 0
        secretKeyPresent := false
        amountIssued := 0
        amountPaid := amount }
    match getActiveMintKeysetLocal store.mintKeysets walletUnit with
    | .error e => (.error e, store)
    | .ok activeKeyset =>
        let numSecrets := (powSplit amount).length
        let (newCount, s1) := store.incrementKeysetCounter activeKeyset.id numSecrets
        let count := newCount - numSecrets
        let premintSecrets := PreMintSecrets.fromXpriv activeKeyset.id count amount
        let s2 := s1.logDerive
          { keysetId := activeKeyset.id
            n := numSecrets
            oldCounter := store.counters activeKeyset.id
            newCounter := newCount
            premint := premintSecrets }
        let s3 := s2.addMintQuote quote
        let s4 := s3.addPremintSecrets quote.id premintSecrets
        let miningShareRequest : MintQuoteMiningShareRequest :=
          { amount := amount
            unit := walletUnit
            headerHash := headerHash
            description := none
            pubkey := none
            keysetId := activeKeyset.id }
        (.ok miningShareRequest, s4)

/-- `Wallet::construct_proofs` (issue_mining_share.rs lines 182-206): the
signature count must match the blinded-message count; each proof copies
the pre-mint secret and amount and takes `C` directly from the signature,
with no witness and no DLEQ. -/
def constructProofs (premintSecrets : PreMintSecrets)
    (signatures : List BlindSignature) : Except WalletError (List Proof) :=
  if premintSecrets.blindedMessages.length ≠ signatures.length then
    .error .mismatchedSignatureCount
  else
    .ok (List.zipWith
      (fun (secret : PreMint) (signature : BlindSignature) =>
        { amount := secret.amount
          keysetId := signature.keysetId
          secret := secret.secret
          c := signature.c
          witnessPresent := false
          dleq := none })
      premintSecrets.secrets signatures)

/-- `Wallet::mint_mining_share` (issue_mining_share.rs lines 117-179).
The mint's HTTP endpoint is the oracle `postMint`. -/
def mintMiningShare (store : LocalStore) (quoteId : String)
    (postMint : MintRequest → Except WalletError MintResponse) :
    Except WalletError (List Proof) × LocalStore :=
  match store.getMintQuote quoteId with
  | none => (.error .unknownQuote, store)
  | some quote =>
    if quote.paymentMethod ≠ .miningShare then (.error .invalidPaymentMethod, store)
    else if quote.state ≠ .paid then (.error .unpaidQuote, store)
    else
      match store.getPremintSecrets quoteId with
      | none => (.error .preMintSecretsNotFound, store)
      | some premintSecrets =>
        let mintRequest : MintRequest :=
          { quote := quoteId
            outputs := premintSecrets.blindedMessages
            signaturePresent := false }
        match postMint mintRequest with
        | .error e => (.error e, store)
        | .ok mintResponse =>
          match constructProofs premintSecrets mintResponse.signatures with
          | .error e => (.error e, store)
          | .ok proofs =>
            let s1 := store.addProofs proofs
            let s2 := s1.removePremintSecrets quoteId
            (.ok proofs, s2)

/-- The per-quote loop of `Wallet::mint_tokens_for_pubkey`
(issue_mining_share.rs lines 246-371): mining-share items increment the
counter, derive and persist quote and secrets, post the mint request, and
on success store proofs and clean up; a client error cleans up and
continues with the remaining quotes. -/
def mintTokensForPubkeyLoop (walletUnit : CurrencyUnit) (mintUrl : String)
    (secretKeyPresent : Bool)
    (postMint : MintRequest → Except WalletError MintResponse) :
    List MintQuoteLookupItem → LocalStore → List Proof →
    Except WalletError (List Proof) × LocalStore
  | [], store, allProofs => (.ok allProofs, store)
  | item :: rest, store, allProofs =>
    match item.method with
    | .miningShare =>
      let amount := item.amount
      let keysetId := item.keysetId
      let numSecrets := (powSplit amount).length
      let (newCount, s1) := store.incrementKeysetCounter keysetId numSecrets
      let count := newCount - numSecrets
      let premintSecrets := PreMintSecrets.fromXpriv keysetId count amount
      let s2 := s1.logDerive
        { keysetId := keysetId
          n := numSecrets
          oldCounter := store.counters keysetId
          newCounter := newCount
          premint := premintSecrets }
      let walletQuote : WalletMintQuote :=
        { id := item.quote
          mintUrl := mintUrl
          paymentMethod := .miningShare
          amount := some amount
          unit := walletUnit
          request := item.quote
          state := .paid
          expiry := 0
          secretKeyPresent := false
          amountIssued := 0
          amountPaid := amount }
      let s3 := s2.addMintQuote walletQuote
      let s4 := s3.addPremintSecrets item.quote premintSecrets
      let mintRequest : MintRequest :=
        { quote := item.quote
          outputs := premintSecrets.blindedMessages
          signaturePresent := secretKeyPresent }
      match postMint mintRequest with
      | .ok mintResponse =>
        match constructProofs premintSecrets mintResponse.signatures with
        | .error e => (.error e, s4)
        | .ok proofs =>
          let s5 := s4.addProofs proofs
          let s6 := (s5.removeMintQuote item.quote).removePremintSecrets item.quote
          mintTokensForPubkeyLoop walletUnit mintUrl secretKeyPresent postMint
            rest s6 (allProofs ++ proofs)
      | .error _ =>
        let s5 := (s4.removeMintQuote item.quote).removePremintSecrets item.quote
        mintTokensForPubkeyLoop walletUnit mintUrl secretKeyPresent postMint
          rest s5 allProofs
    | _ =>
      mintTokensForPubkeyLoop walletUnit mintUrl secretKeyPresent postMint
        rest store allProofs

/-- `Wallet::mint_tokens_for_pubkey` (issue_mining_share.rs lines
223-379): look up the quotes for the pubkey (client oracle
`lookupResult`), then run the per-quote loop. -/
def mintTokensForPubkey (store : LocalStore) (walletUnit : CurrencyUnit)
    (mintUrl : String) (secretKeyPresent : Bool)
    (lookupResult : Except WalletError (List MintQuoteLookupItem))
    (postMint : MintRequest → Except WalletError MintResponse) :
    Except WalletError (List Proof) × LocalStore :=
  match lookupResult with
  | .error e => (.error e, store)
  | .ok items =>
    if items.isEmpty then (.ok [], store)
    else mintTokensForPubkeyLoop walletUnit mintUrl secretKeyPresent postMint items store []

/-- `Wallet::get_mint_mining_share_quote` (wallet/mint.rs lines 106-179):
builds a quote that is immediately `Paid`, with
`expiry = unix_time() + mint_ttl` where the effective `mint_ttl` is the
second, shadowing binding `500_000` (the first binding `600_000` only
feeds the unused `quote_expiry`), and persists it.  The request's
`description` and `pubkey` are ignored by this code path. -/
def getMintMiningShareQuote (store : LocalStore) (mintUrl : String) (now : Nat)
    (req : MintQuoteMiningShareRequest) : WalletMintQuoteLegacy × LocalStore :=
  let _quoteExpiry := now + 600000
  let mintTtl := 500000
  let expiry := now + mintTtl
  let quote : WalletMintQuoteLegacy :=
    { id := toString req.headerHash
      mintUrl := mintUrl
      amount := req.amount
      unit := req.unit
      request := toString req.headerHash
      state := .paid
      expiry := expiry
      secretKeyPresent := false }
  (quote,
    { store with
      legacyQuotes := (quote.id, quote) :: store.legacyQuotes.filter (fun p => p.1 ≠ quote.id) })

/-- Modelled from the spec: `MintQuote::amount_mintable` (cdk-common, not
under `src/`) — the amount still mintable on a quote,
`amount_paid − amount_issued`. -/
def WalletMintQuote.amountMintable (q : WalletMintQuote) : Nat :=
  q.amountPaid - q.amountIssued

/-- The quote-fetch loop of `mint_batch` (batch.rs lines 43-51): each id
must resolve in the local store or the whole call fails with
`UnknownQuote`. -/
def lookupQuotes (store : LocalStore) : List String → Except WalletError (List WalletMintQuote)
  | [] => .ok []
  | quoteId :: rest =>
    match store.getMintQuote quoteId with
    | none => .error .unknownQuote
    | some q => (lookupQuotes store rest).map (q :: ·)

/-- `BatchMintRequest` (cdk-common mint types): quote ids, one shared
outputs array, optional signature array (absent here — batch.rs line 144
defers NUT-20). -/
structure BatchMintRequest where
  quote : List String
  outputs : List BlindedMessage
  signaturePresent : Bool
deriving DecidableEq, Repr

/-- The mint-side interfaces `mint_batch` consumes, as oracles:
`fetch_active_keyset`, `get_keyset_fees_and_amounts_by_id`, the batch
status POST, the batch mint POST, and `load_keyset_keys`. -/
structure BatchClient where
  fetchActiveKeyset : Except WalletError KeySetInfo
  feesAndAmounts : Nat → Except WalletError Unit
  postBatchQuoteStatus : List String → Except WalletError Unit
  postMintBatch : BatchMintRequest → Except WalletError MintResponse
  loadKeysetKeys : Nat → Except WalletError (Nat → Option Pt)

/-- Modelled from the spec: `PreMintSecrets::with_conditions` — secrets
carrying spending conditions are freshly random rather than
counter-derived; no claim depends on their values. -/
def preMintWithConditions (keysetId amount : Nat) : PreMintSecrets :=
  { keysetId := keysetId
    count := 0
    secrets := (powSplit amount).map (fun a =>
      { amount := a, counter := 0, secret := 0, r := 0, blindedSecret := 0 }) }

/-- The DLEQ loop of `mint_batch` (batch.rs lines 162-172): for each
returned signature zipped with its pre-mint entry, load that signature's
keyset keys, take the amount-indexed key (`AmountKey` if absent), and
verify; `Ok` and `MissingDleqProof` continue, anything else aborts with
`CouldNotVerifyDleq`. -/
def verifySigsDleq (loadKeys : Nat → Except WalletError (Nat → Option Pt)) :
    List (BlindSignature × PreMint) → Except WalletError Unit
  | [] => .ok ()
  | (sig, premint) :: rest =>
    match loadKeys sig.keysetId with
    | .error e => .error e
    | .ok keys =>
      match keys sig.amount with
      | none => .error .amountKey
      | some key =>
        match verifyDleq key sig premint.blindedSecret with
        | .ok _ => verifySigsDleq loadKeys rest
        | .error .missingDleqProof => verifySigsDleq loadKeys rest
        | .error _ => .error .couldNotVerifyDleq

/-- Modelled from the spec: `dhke::construct_proofs` (cdk crate, not
under `src/`) — unblind each signature with the matching blinding factor
and amount-indexed key, `C = C_ − r·K`, keeping the signature's DLEQ. -/
def dhkeConstructProofs (keys : Nat → Option Pt) :
    List BlindSignature → List Nat → List Nat → Except WalletError (List Proof)
  | [], [], [] => .ok []
  | sig :: sigs, r :: rs, secret :: secrets =>
    match keys sig.amount with
    | none => .error .amountKey
    | some key =>
      (dhkeConstructProofs keys sigs rs secrets).map
        (fun ps =>
          { amount := sig.amount
            keysetId := sig.keysetId
            secret := secret
            c := sig.c - (r : Pt) * key
            witnessPresent := false
            dleq := sig.dleq } :: ps)
  | _, _, _ => .error .mismatchedSignatureCount

/-- `Wallet::mint_batch` (batch.rs lines 32-221).  The validation
sequence is exactly the source's: empty list → `AmountUndefined`; any
unknown quote → `UnknownQuote`; mixed payment methods →
`UnsupportedPaymentMethod`; mixed units → `UnsupportedUnit`; any quote
not `Paid` → `UnknownQuote` (source comment: Quote not ready); expired
quotes only produce a warning; zero mintable total → `AmountUndefined`.
Without spending conditions the keyset counter is incremented by the
number of split denominations and the secrets derived at
`new_counter - num_secrets`; the store keeps that increment even when a
later network step fails. -/
def mintBatch (store : LocalStore) (client : BatchClient)
    (quoteIds : List String) (spendingConditions : Option Unit) :
    Except WalletError (List Proof) × LocalStore :=
  match quoteIds with
  | [] => (.error .amountUndefined, store)
  | _ :: _ =>
    match lookupQuotes store quoteIds with
    | .error e => (.error e, store)
    | .ok [] => (.error .amountUndefined, store)
    | .ok (q0 :: qrest) =>
      let quoteInfos := q0 :: qrest
      if quoteInfos.any (fun q => q.paymentMethod ≠ q0.paymentMethod) then
        (.error .unsupportedPaymentMethod, store)
      else if quoteInfos.any (fun q => q.unit ≠ q0.unit) then
        (.error .unsupportedUnit, store)
      else if quoteInfos.any (fun q => q.state ≠ .paid) then
        (.error .unknownQuote, store)
      else
        let totalAmount := quoteInfos.foldl (fun acc q => acc + q.amountMintable) 0
        if totalAmount = 0 then (.error .amountUndefined, store)
        else
          match client.fetchActiveKeyset with
          | .error e => (.error e, store)
          | .ok activeKeyset =>
            match client.feesAndAmounts activeKeyset.id with
            | .error e => (.error e, store)
            | .ok _ =>
              let derived : PreMintSecrets × LocalStore :=
                match spendingConditions with
                | some _ => (preMintWithConditions activeKeyset.id totalAmount, store)
                | none =>
                  let numSecrets := (powSplit totalAmount).length
                  let (newCounter, s1) := store.incrementKeysetCounter activeKeyset.id numSecrets
                  let count := newCounter - numSecrets
                  let premintSecrets := PreMintSecrets.fromXpriv activeKeyset.id count totalAmount
                  (premintSecrets, s1.logDerive
                    { keysetId := activeKeyset.id
                      n := numSecrets
                      oldCounter := store.counters activeKeyset.id
                      newCounter := newCounter
                      premint := premintSecrets })
              let premintSecrets := derived.1
              let s2 := derived.2
              let batchRequest : BatchMintRequest :=
                { quote := quoteIds
                  outputs := premintSecrets.blindedMessages
                  signaturePresent := false }
              match client.postBatchQuoteStatus quoteIds with
              | .error e => (.error e, s2)
              | .ok _ =>
                match client.postMintBatch batchRequest with
                | .error e => (.error e, s2)
                | .ok mintRes =>
                  match client.loadKeysetKeys activeKeyset.id with
                  | .error e => (.error e, s2)
                  | .ok keys =>
                    match verifySigsDleq client.loadKeysetKeys
                        (mintRes.signatures.zip premintSecrets.secrets) with
                    | .error e => (.error e, s2)
                    | .ok _ =>
                      match dhkeConstructProofs keys mintRes.signatures
                          (premintSecrets.secrets.map (·.r))
                          (premintSecrets.secrets.map (·.secret)) with
                      | .error e => (.error e, s2)
                      | .ok proofs =>
                        let s3 := quoteIds.foldl (fun st qid => st.removeMintQuote qid) s2
                        let s4 := s3.addProofs proofs
                        let s5 := { s4 with txCount := s4.txCount + 1 }
                        (.ok proofs, s5)

/-- A store with nothing in it. -/
def emptyStore : LocalStore :=
  { mintKeysets := none
    counters := fun _ => 0
    quotes := []
    legacyQuotes := []
    premints := []
    proofs := []
    txCount := 0
    deriveLog := []
    quoteLog := [] }

/-- A store holding one active zero-fee keyset (id 7) for the HASH unit. -/
def storeHash : LocalStore :=
  { emptyStore with
    mintKeysets := some [{ id := 7, active := true, unit := .custom "HASH", input_fee_ppk := 0 }] }

/-- A Paid bolt11 quote fixture. -/
def quotePaid (id : String) (amount : Nat) : WalletMintQuote :=
  { id := id
    mintUrl := "m"
    paymentMethod := .bolt11
    amount := some amount
    unit := .sat
    request := id
    state := .paid
    expiry := 1000
    secretKeyPresent := false
    amountIssued := 0
    amountPaid := amount }

/-- C9: deserializing a `PostMintQuoteLookupRequest` without a
`state_filter` field yields `OnlyPaid`, and
`MintQuoteStateFilter::default()` is `OnlyPaid`. -/
theorem lookup_state_filter_defaults_onlyPaid :
    MintQuoteStateFilter.defaultFilter = .onlyPaid ∧
    ∀ pubkeys : List PublicKey,
      deserializePostMintQuoteLookupRequest pubkeys none =
        { pubkeys := pubkeys, state_filter := .onlyPaid } :=
  ⟨rfl, fun _ => rfl⟩

/-- C10: `QuoteState::from_str` inverts the `Display` rendering on all
four states, and returns the `UnknownState` error on every other
string. -/
theorem quote_state_roundtrip :
    (∀ s : QuoteState, QuoteState.fromStr s.display = .ok s) ∧
    (∀ str : String, (∀ s : QuoteState, str ≠ s.display) →
      QuoteState.fromStr str = .error .unknownState) := by
  constructor
  · intro s; cases s <;> rfl
  · intro str h
    have h1 := h .pending
    have h2 := h .paid
    have h3 := h .unpaid
    have h4 := h .issued
    simp only [QuoteState.display] at h1 h2 h3 h4
    simp [QuoteState.fromStr, h1, h2, h3, h4]

/-- Witness for the round-trip theorem: a string outside the four
renderings parses to `UnknownState`. -/
theorem quote_state_roundtrip_witness :
    QuoteState.fromStr "MINTED" = .error .unknownState :=
  quote_state_roundtrip.2 "MINTED" (by intro s; cases s <;> decide)

/-- C5 (code bug): the wallet's `mint_batch` rejects an empty quote list
with `AmountUndefined` (its own tests expect `BatchEmpty`), and has no
100-quote cap at all: a list of 101 unknown quote ids reaches the quote
lookup and fails with `UnknownQuote` (the tests expect
`BatchSizeExceeded`).  Both rejections are independent of the mint client
and leave the store untouched. -/
theorem mint_batch_empty_and_oversize_errors :
    (∀ client : BatchClient,
      mintBatch emptyStore client [] none = (.error .amountUndefined, emptyStore)) ∧
    (∀ client : BatchClient,
      mintBatch emptyStore client
        ((List.range 101).map (fun i => "quote_" ++ toString i)) none =
        (.error .unknownQuote, emptyStore)) ∧
    WalletError.amountUndefined ≠ WalletError.batchEmpty ∧
    WalletError.unknownQuote ≠ WalletError.batchSizeExceeded := by
  refine ⟨fun client => rfl, fun client => rfl, by decide, by decide⟩

/-- C6 (code bug): a batch containing a quote that is not `Paid` is
rejected with `UnknownQuote`, not the `UnpaidQuote` the repository's own
test asserts; the rejection uses no mint client and leaves the store
untouched. -/
theorem mint_batch_unpaid_gives_unknownQuote :
    (∀ client : BatchClient,
      mintBatch
        { emptyStore with
          quotes := [("q1", quotePaid "q1" 100),
                     ("q2", { quotePaid "q2" 200 with state := .unpaid })] }
        client ["q1", "q2"] none =
        (.error .unknownQuote,
          { emptyStore with
            quotes := [("q1", quotePaid "q1" 100),
                       ("q2", { quotePaid "q2" 200 with state := .unpaid })] })) ∧
    WalletError.unknownQuote ≠ WalletError.unpaidQuote := by
  refine ⟨fun client => rfl, by decide⟩

/-- C7 (code bug): mixed payment methods are rejected with
`UnsupportedPaymentMethod` and mixed currency units with
`UnsupportedUnit`, not the `BatchPaymentMethodMismatch` and
`BatchCurrencyUnitMismatch` the repository's own tests assert; both
rejections use no mint client and leave the store untouched. -/
theorem mint_batch_mixed_method_unit_errors :
    (∀ client : BatchClient,
      mintBatch
        { emptyStore with
          quotes := [("q1", quotePaid "q1" 100),
                     ("q2", { quotePaid "q2" 200 with paymentMethod := .bolt12 })] }
        client ["q1", "q2"] none =
        (.error .unsupportedPaymentMethod,
          { emptyStore with
            quotes := [("q1", quotePaid "q1" 100),
                       ("q2", { quotePaid "q2" 200 with paymentMethod := .bolt12 })] })) ∧
    (∀ client : BatchClient,
      mintBatch
        { emptyStore with
          quotes := [("q1", quotePaid "q1" 100),
                     ("q2", { quotePaid "q2" 200 with unit := .usd })] }
        client ["q1", "q2"] none =
        (.error .unsupportedUnit,
          { emptyStore with
            quotes := [("q1", quotePaid "q1" 100),
                       ("q2", { quotePaid "q2" 200 with unit := .usd })] })) ∧
    WalletError.unsupportedPaymentMethod ≠ WalletError.batchPaymentMethodMismatch ∧
    WalletError.unsupportedUnit ≠ WalletError.batchCurrencyUnitMismatch := by
  refine ⟨fun client => rfl, fun client => rfl, by decide, by decide⟩

/-- C4 counterexample: a mining-share quote request with the all-zero
header hash and an in-range amount is not rejected —
`mint_mining_share_quote` never inspects the header hash. -/
theorem zero_header_hash_passes_validation :
    (mintMiningShareQuote storeHash (.custom "HASH") "m" 5 0).1 =
      .ok { amount := 5, unit := .custom "HASH", headerHash := 0,
            description := none, pubkey := none, keysetId := 7 } := by
  rfl

/-- C4 amended: `mint_mining_share_quote` rejects exactly the amounts
outside `[1, 256]`, with an `AmountOutofLimitRange` error carrying the
bounds 1 and 256 and no state change; an in-range amount passes
validation for every header hash, zero included, succeeding whenever an
active keyset exists. -/
theorem mining_share_amount_validation (store : LocalStore)
    (walletUnit : CurrencyUnit) (mintUrl : String) (amount headerHash : Nat) :
    (amount = 0 ∨ 256 < amount →
      mintMiningShareQuote store walletUnit mintUrl amount headerHash =
        (.error (.amountOutofLimitRange 1 256 amount), store)) ∧
    (1 ≤ amount → amount ≤ 256 →
      ∀ ks, getActiveMintKeysetLocal store.mintKeysets walletUnit = .ok ks →
        (mintMiningShareQuote store walletUnit mintUrl amount headerHash).1 =
          .ok { amount := amount, unit := walletUnit, headerHash := headerHash,
                description := none, pubkey := none, keysetId := ks.id }) := by
  constructor
  · intro h
    simp only [mintMiningShareQuote, if_pos h]
  · intro h1 h2 ks hks
    have hcond : ¬ (amount = 0 ∨ 256 < amount) := by omega
    simp only [mintMiningShareQuote, if_neg hcond, hks]

/-- Witness for the amended C4 statement at amount 300 (rejected with the
bounds) and amount 5 with a zero header hash (accepted). -/
theorem mining_share_amount_validation_witness :
    mintMiningShareQuote storeHash (.custom "HASH") "m" 300 5 =
      (.error (.amountOutofLimitRange 1 256 300), storeHash) ∧
    (mintMiningShareQuote storeHash (.custom "HASH") "m" 5 0).1 =
      .ok { amount := 5, unit := .custom "HASH", headerHash := 0,
            description := none, pubkey := none, keysetId := 7 } :=
  ⟨(mining_share_amount_validation storeHash (.custom "HASH") "m" 300 5).1
      (Or.inr (by decide)),
   (mining_share_amount_validation storeHash (.custom "HASH") "m" 5 0).2
      (by decide) (by decide)
      { id := 7, active := true, unit := .custom "HASH", input_fee_ppk := 0 } rfl⟩

/-- C3 counterexample: the wallet's `get_mint_mining_share_quote` creates
a mining-share quote that is `Paid` but whose expiry is
`now + 500_000`, not 0. -/
theorem get_mint_mining_share_quote_nonzero_expiry :
    ((getMintMiningShareQuote emptyStore "m" 1000
        { amount := 5, unit := .custom "HASH", headerHash := 3,
          description := none, pubkey := none, keysetId := 0 }).1.state =
      QuoteState.paid) ∧
    ((getMintMiningShareQuote emptyStore "m" 1000
        { amount := 5, unit := .custom "HASH", headerHash := 3,
          description := none, pubkey := none, keysetId := 0 }).1.expiry =
      501000) ∧
    (501000 : Nat) ≠ 0 := by
  refine ⟨rfl, rfl, by decide⟩

/-- Every quote the `mint_tokens_for_pubkey` loop adds to the store is
`Paid`, has no expiry, and has `amount_paid` equal to its amount. -/
lemma mintTokensForPubkeyLoop_quoteLog
    (walletUnit : CurrencyUnit) (mintUrl : String) (skp : Bool)
    (postMint : MintRequest → Except WalletError MintResponse)
    (items : List MintQuoteLookupItem) :
    ∀ (store : LocalStore) (acc : List Proof),
      (∀ q ∈ store.quoteLog,
        q.state = QuoteState.paid ∧ q.expiry = 0 ∧ q.amount = some q.amountPaid) →
      ∀ q ∈ (mintTokensForPubkeyLoop walletUnit mintUrl skp postMint
              items store acc).2.quoteLog,
        q.state = QuoteState.paid ∧ q.expiry = 0 ∧ q.amount = some q.amountPaid := by
  induction items with
  | nil =>
    intro store acc hinv q hq
    exact hinv q hq
  | cons item rest ih =>
    intro store acc hinv q hq
    obtain ⟨ipk, iquote, imethod, iamount, iksid⟩ := item
    cases imethod with
    | bolt11 => exact ih store acc hinv q hq
    | bolt12 => exact ih store acc hinv q hq
    | miningShare =>
      simp only [mintTokensForPubkeyLoop, LocalStore.incrementKeysetCounter,
        LocalStore.logDerive, LocalStore.addMintQuote, LocalStore.addPremintSecrets,
        LocalStore.removeMintQuote, LocalStore.removePremintSecrets,
        LocalStore.addProofs] at hq
      split at hq
      · -- the mint accepted the request
        split at hq
        · -- construct_proofs failed: the whole call aborts with state s4
          rcases List.mem_append.mp hq with h | h
          · exact hinv q h
          · simp only [List.mem_singleton] at h
            subst h
            exact ⟨rfl, rfl, rfl⟩
        · -- proofs stored, quote cleaned up, loop continues
          refine ih _ _ ?_ q hq
          intro q' hq'
          simp only [List.append_nil] at hq'
          rcases List.mem_append.mp hq' with h | h
          · exact hinv q' h
          · simp only [List.mem_singleton] at h
            subst h
            exact ⟨rfl, rfl, rfl⟩
      · -- the mint rejected the request: clean up and continue
        refine ih _ _ ?_ q hq
        intro q' hq'
        rcases List.mem_append.mp hq' with h | h
        · exact hinv q' h
        · simp only [List.mem_singleton] at h
          subst h
          exact ⟨rfl, rfl, rfl⟩

/-- C3 amended: the quotes created by `mint_mining_share_quote` and by
`mint_tokens_for_pubkey` are persisted already `Paid`, with
`amount_paid` equal to the quote amount and expiry 0; the quote created
by `get_mint_mining_share_quote` is also persisted `Paid`, but with
expiry `now + 500_000`, which is never 0. -/
theorem mining_share_quotes_created_paid :
    (∀ (store : LocalStore) (walletUnit : CurrencyUnit) (mintUrl : String)
        (amount headerHash : Nat),
      (∀ q ∈ store.quoteLog,
        q.state = QuoteState.paid ∧ q.expiry = 0 ∧ q.amount = some q.amountPaid) →
      ∀ q ∈ (mintMiningShareQuote store walletUnit mintUrl amount headerHash).2.quoteLog,
        q.state = QuoteState.paid ∧ q.expiry = 0 ∧ q.amount = some q.amountPaid) ∧
    (∀ (store : LocalStore) (walletUnit : CurrencyUnit) (mintUrl : String)
        (skp : Bool) (lookupResult : Except WalletError (List MintQuoteLookupItem))
        (postMint : MintRequest → Except WalletError MintResponse),
      (∀ q ∈ store.quoteLog,
        q.state = QuoteState.paid ∧ q.expiry = 0 ∧ q.amount = some q.amountPaid) →
      ∀ q ∈ (mintTokensForPubkey store walletUnit mintUrl skp
              lookupResult postMint).2.quoteLog,
        q.state = QuoteState.paid ∧ q.expiry = 0 ∧ q.amount = some q.amountPaid) ∧
    (∀ (store : LocalStore) (mintUrl : String) (now : Nat)
        (req : MintQuoteMiningShareRequest),
      (getMintMiningShareQuote store mintUrl now req).1.state = QuoteState.paid ∧
      (getMintMiningShareQuote store mintUrl now req).1.expiry = now + 500000 ∧
      (getMintMiningShareQuote store mintUrl now req).1.expiry ≠ 0) := by
  refine ⟨?_, ?_, ?_⟩
  · intro store walletUnit mintUrl amount headerHash hinv q hq
    simp only [mintMiningShareQuote] at hq
    split at hq
    · exact hinv q hq
    · split at hq
      · exact hinv q hq
      · simp only [LocalStore.incrementKeysetCounter, LocalStore.logDerive,
          LocalStore.addMintQuote, LocalStore.addPremintSecrets] at hq
        rcases List.mem_append.mp hq with h | h
        · exact hinv q h
        · simp only [List.mem_singleton] at h
          subst h
          exact ⟨rfl, rfl, rfl⟩
  · intro store walletUnit mintUrl skp lookupResult postMint hinv q hq
    cases lookupResult with
    | error e => exact hinv q hq
    | ok items =>
      simp only [mintTokensForPubkey] at hq
      split at hq
      · exact hinv q hq
      · exact mintTokensForPubkeyLoop_quoteLog walletUnit mintUrl skp postMint
          items store [] hinv q hq
  · intro store mintUrl now req
    refine ⟨rfl, rfl, ?_⟩
    have h : (getMintMiningShareQuote store mintUrl now req).1.expiry = now + 500000 := rfl
    omega

/-- Witness: a concrete `mint_mining_share_quote` run adds exactly one
quote, and it is Paid, unexpiring, fully paid. -/
theorem mining_share_quotes_created_paid_witness :
    ({ id := "3", mintUrl := "m", paymentMethod := PaymentMethod.miningShare,
       amount := some 5, unit := CurrencyUnit.custom "HASH", request := "3",
       state := QuoteState.paid, expiry := 0, secretKeyPresent := false,
       amountIssued := 0, amountPaid := 5 } : WalletMintQuote).state =
        QuoteState.paid ∧
    ({ id := "3", mintUrl := "m", paymentMethod := PaymentMethod.miningShare,
       amount := some 5, unit := CurrencyUnit.custom "HASH", request := "3",
       state := QuoteState.paid, expiry := 0, secretKeyPresent := false,
       amountIssued := 0, amountPaid := 5 } : WalletMintQuote).expiry = 0 ∧
    ({ id := "3", mintUrl := "m", paymentMethod := PaymentMethod.miningShare,
       amount := some 5, unit := CurrencyUnit.custom "HASH", request := "3",
       state := QuoteState.paid, expiry := 0, secretKeyPresent := false,
       amountIssued := 0, amountPaid := 5 } : WalletMintQuote).amount = some 5 :=
  mining_share_quotes_created_paid.1 storeHash (.custom "HASH") "m" 5 3
    (by intro q hq; simp [storeHash, emptyStore] at hq)
    _ (by decide)

/-- Pre-mint fixture: one secret of amount 1 under keyset 7. -/
def pmC2 : PreMintSecrets :=
  { keysetId := 7
    count := 0
    secrets := [{ amount := 1, counter := 0, secret := 11, r := 3, blindedSecret := 22 }] }

/-- A Paid mining-share quote fixture with stored pre-mint secrets. -/
def storeC2 : LocalStore :=
  { emptyStore with
    quotes := [("q",
      { id := "q", mintUrl := "m", paymentMethod := .miningShare,
        amount := some 1, unit := .custom "HASH", request := "q",
        state := .paid, expiry := 0, secretKeyPresent := false,
        amountIssued := 0, amountPaid := 1 })]
    premints := [("q", pmC2)] }

/-- C2 counterexample: the mint returns a blind signature whose DLEQ
proof fails verification against the amount-indexed key (here key 3 for
amount 1), yet `mint_mining_share` succeeds and accepts the proof. -/
theorem mint_mining_share_accepts_invalid_dleq :
    verifyDleq 3
      { amount := 1, keysetId := 7, c := 9, dleq := some { e := 1, s := 2 } }
      22 = .error .invalidDleqProof ∧
    (mintMiningShare storeC2 "q"
      (fun _ => .ok { signatures :=
        [{ amount := 1, keysetId := 7, c := 9, dleq := some { e := 1, s := 2 } }] })).1 =
      .ok [{ amount := 1, keysetId := 7, secret := 11, c := 9,
             witnessPresent := false, dleq := none }] := by
  exact ⟨rfl, rfl⟩

/-- `construct_proofs` never reads the DLEQ field: two signature lists
that agree after stripping DLEQ give the same proofs. -/
lemma constructProofs_ignores_dleq (pm : PreMintSecrets) :
    ∀ (sa sb : List BlindSignature), sa.map stripDleq = sb.map stripDleq →
      constructProofs pm sa = constructProofs pm sb := by
  have hz : ∀ (secrets : List PreMint) (sa sb : List BlindSignature),
      sa.map stripDleq = sb.map stripDleq →
      List.zipWith
        (fun (secret : PreMint) (signature : BlindSignature) =>
          ({ amount := secret.amount, keysetId := signature.keysetId,
             secret := secret.secret, c := signature.c, witnessPresent := false,
             dleq := none } : Proof)) secrets sa =
      List.zipWith
        (fun (secret : PreMint) (signature : BlindSignature) =>
          ({ amount := secret.amount, keysetId := signature.keysetId,
             secret := secret.secret, c := signature.c, witnessPresent := false,
             dleq := none } : Proof)) secrets sb := by
    intro secrets
    induction secrets with
    | nil => intro sa sb h; simp
    | cons s ss ih =>
      intro sa sb h
      cases sa with
      | nil =>
        cases sb with
        | nil => rfl
        | cons b bs => simp [stripDleq] at h
      | cons a as =>
        cases sb with
        | nil => simp [stripDleq] at h
        | cons b bs =>
          simp only [List.map_cons, List.cons.injEq] at h
          obtain ⟨h1, h2⟩ := h
          have hk : a.keysetId = b.keysetId := by
            have := congrArg BlindSignature.keysetId h1
            simpa [stripDleq] using this
          have hc : a.c = b.c := by
            have := congrArg BlindSignature.c h1
            simpa [stripDleq] using this
          simp [List.zipWith, hk, hc, ih as bs h2]
  intro sa sb h
  have hlen : sa.length = sb.length := by
    have := congrArg List.length h
    simpa using this
  unfold constructProofs
  rw [hlen]
  split
  · rfl
  · exact congrArg Except.ok (hz pm.secrets sa sb h)

/-- C2 amended: `mint_mining_share` performs no DLEQ verification.  Its
`construct_proofs` only checks that the signature count matches the
blinded-message count, and the whole operation's result is unchanged
when the mint's responses are replaced by ones that agree up to their
DLEQ fields — missing and invalid proofs are accepted alike. -/
theorem mint_mining_share_ignores_dleq :
    (∀ (pm : PreMintSecrets) (sigs : List BlindSignature),
      pm.blindedMessages.length ≠ sigs.length →
        constructProofs pm sigs = .error .mismatchedSignatureCount) ∧
    (∀ (pm : PreMintSecrets) (sigs : List BlindSignature),
      constructProofs pm sigs = constructProofs pm (sigs.map stripDleq)) ∧
    (∀ (store : LocalStore) (quoteId : String)
        (post1 post2 : MintRequest → Except WalletError MintResponse),
      (∀ req, (post1 req).map (fun resp => resp.signatures.map stripDleq) =
              (post2 req).map (fun resp => resp.signatures.map stripDleq)) →
      mintMiningShare store quoteId post1 = mintMiningShare store quoteId post2) := by
  refine ⟨?_, ?_, ?_⟩
  · intro pm sigs h
    simp [constructProofs, h]
  · intro pm sigs
    refine constructProofs_ignores_dleq pm sigs (sigs.map stripDleq) ?_
    simp [List.map_map]
    intro a _
    rfl
  · intro store quoteId post1 post2 h
    simp only [mintMiningShare]
    split
    · rfl
    · split
      · rfl
      · split
        · rfl
        · split
          · rfl
          · rename_i premintSecrets hpeq
            have hreq := h
              { quote := quoteId, outputs := premintSecrets.blindedMessages,
                signaturePresent := false }
            cases hp1 : post1
                { quote := quoteId, outputs := premintSecrets.blindedMessages,
                  signaturePresent := false } with
            | error e1 =>
              cases hp2 : post2
                  { quote := quoteId, outputs := premintSecrets.blindedMessages,
                    signaturePresent := false } with
              | error e2 =>
                rw [hp1, hp2] at hreq
                simp only [Except.map] at hreq
                cases hreq
                rfl
              | ok b =>
                rw [hp1, hp2] at hreq
                simp [Except.map] at hreq
            | ok a =>
              cases hp2 : post2
                  { quote := quoteId, outputs := premintSecrets.blindedMessages,
                    signaturePresent := false } with
              | error e2 =>
                rw [hp1, hp2] at hreq
                simp [Except.map] at hreq
              | ok b =>
                rw [hp1, hp2] at hreq
                simp only [Except.map, Except.ok.injEq] at hreq
                have hcp : constructProofs premintSecrets a.signatures =
                    constructProofs premintSecrets b.signatures :=
                  constructProofs_ignores_dleq premintSecrets _ _ hreq
                dsimp only
                rw [hcp]

/-- Witness: replacing a response carrying an (invalid) DLEQ proof by the
same response without any DLEQ proof leaves `mint_mining_share`'s result
unchanged, and a response with the wrong signature count is rejected. -/
theorem mint_mining_share_ignores_dleq_witness :
    mintMiningShare storeC2 "q"
      (fun _ => .ok { signatures :=
        [{ amount := 1, keysetId := 7, c := 9, dleq := some { e := 1, s := 2 } }] }) =
    mintMiningShare storeC2 "q"
      (fun _ => .ok { signatures :=
        [{ amount := 1, keysetId := 7, c := 9, dleq := none }] }) ∧
    constructProofs pmC2 [] = .error .mismatchedSignatureCount :=
  ⟨mint_mining_share_ignores_dleq.2.2 storeC2 "q" _ _ (fun _ => rfl),
   mint_mining_share_ignores_dleq.1 pmC2 [] (by decide)⟩

/-- `min_by_key` returns an element of the traversed list. -/
lemma minByFeeAux_mem (l : List KeySetInfo) : ∀ acc, minByFeeAux acc l ∈ acc :: l := by
  induction l with
  | nil => intro acc; simp [minByFeeAux]
  | cons k ks ih =>
    intro acc
    simp only [minByFeeAux]
    rcases List.mem_cons.mp (ih (if k.input_fee_ppk < acc.input_fee_ppk then k else acc)) with h | h
    · rw [h]
      split
      · simp
      · simp
    · simp [List.mem_cons.mpr (Or.inr (List.mem_cons.mpr (Or.inr h)))]

/-- `min_by_key` returns an element whose key is minimal. -/
lemma minByFeeAux_le (l : List KeySetInfo) :
    ∀ acc, ∀ k ∈ acc :: l,
      (minByFeeAux acc l).input_fee_ppk ≤ k.input_fee_ppk := by
  induction l with
  | nil =>
    intro acc k hk
    simp at hk
    subst hk
    simp [minByFeeAux]
  | cons x xs ih =>
    intro acc k hk
    simp only [minByFeeAux]
    have hle : (minByFeeAux (if x.input_fee_ppk < acc.input_fee_ppk then x else acc) xs).input_fee_ppk ≤
        (if x.input_fee_ppk < acc.input_fee_ppk then x else acc).input_fee_ppk :=
      ih _ _ (List.mem_cons_self _ _)
    have hacc : (if x.input_fee_ppk < acc.input_fee_ppk then x else acc).input_fee_ppk ≤ acc.input_fee_ppk := by
      split <;> omega
    have hx : (if x.input_fee_ppk < acc.input_fee_ppk then x else acc).input_fee_ppk ≤ x.input_fee_ppk := by
      split <;> omega
    rcases List.mem_cons.mp hk with h | h
    · subst h; omega
    · rcases List.mem_cons.mp h with h | h
      · subst h; omega
      · exact ih _ k (List.mem_cons_of_mem _ h)

/-- `min_by_key` returns the first element attaining the minimal key:
searching the traversed list for the minimal fee finds exactly it. -/
lemma minByFeeAux_first (l : List KeySetInfo) :
    ∀ acc, (acc :: l).find?
        (fun k => k.input_fee_ppk == (minByFeeAux acc l).input_fee_ppk) =
      some (minByFeeAux acc l) := by
  induction l with
  | nil =>
    intro acc
    simp [minByFeeAux, List.find?]
  | cons x xs ih =>
    intro acc
    simp only [minByFeeAux]
    by_cases hcs : x.input_fee_ppk < acc.input_fee_ppk
    · simp only [if_pos hcs]
      have hr_le : (minByFeeAux x xs).input_fee_ppk ≤ x.input_fee_ppk :=
        minByFeeAux_le xs x x (List.mem_cons_self x xs)
      have hb : (acc.input_fee_ppk == (minByFeeAux x xs).input_fee_ppk) = false := by
        simp only [beq_eq_false_iff_ne, ne_eq]
        omega
      have ihx := ih x
      simp only [List.find?_cons] at ihx
      simp only [List.find?_cons, hb]
      exact ihx
    · simp only [if_neg hcs]
      have hr_le : (minByFeeAux acc xs).input_fee_ppk ≤ acc.input_fee_ppk :=
        minByFeeAux_le xs acc acc (List.mem_cons_self acc xs)
      have ih' := ih acc
      by_cases hacc : acc.input_fee_ppk = (minByFeeAux acc xs).input_fee_ppk
      · have hbt : (acc.input_fee_ppk == (minByFeeAux acc xs).input_fee_ppk) = true := by
          simp [hacc]
        simp only [List.find?_cons, hbt] at ih'
        simp only [List.find?_cons, hbt]
        exact ih'
      · have hbf : (acc.input_fee_ppk == (minByFeeAux acc xs).input_fee_ppk) = false := by
          simp [hacc]
        simp only [List.find?_cons, hbf] at ih'
        have hxb : (x.input_fee_ppk == (minByFeeAux acc xs).input_fee_ppk) = false := by
          simp only [beq_eq_false_iff_ne, ne_eq]
          intro hxr
          apply hacc
          omega
        simp only [List.find?_cons, hbf, hxb]
        exact ih'

/-- C8 counterexample: with two stored active same-unit keysets both at
the lowest fee, `get_active_mint_keyset_local` returns whichever comes
first in store order (id 2 here), not the one with the smaller id —
there is no tie-break by keyset id. -/
theorem keyset_tiebreak_not_by_id :
    getActiveMintKeysetLocal
      (some [{ id := 2, active := true, unit := .sat, input_fee_ppk := 5 },
             { id := 1, active := true, unit := .sat, input_fee_ppk := 5 }]) .sat =
      .ok { id := 2, active := true, unit := .sat, input_fee_ppk := 5 } ∧
    ¬ (∀ r, getActiveMintKeysetLocal
        (some [{ id := 2, active := true, unit := .sat, input_fee_ppk := 5 },
               { id := 1, active := true, unit := .sat, input_fee_ppk := 5 }]) .sat =
          .ok r → r.id ≤ 1) := by
  refine ⟨rfl, ?_⟩
  intro hclaim
  have h2 := hclaim { id := 2, active := true, unit := .sat, input_fee_ppk := 5 } rfl
  exact absurd h2 (by decide)

/-- C8 amended: `get_active_mint_keyset_local` fails with
`NoActiveKeyset` exactly when no stored keyset is active for the
wallet's unit; otherwise it returns an active matching keyset with the
lowest `input_fee_ppk`, ties broken by position in the stored list (the
first keyset attaining the minimal fee), not by keyset id. -/
theorem active_keyset_lowest_fee_first (stored : Option (List KeySetInfo))
    (walletUnit : CurrencyUnit) :
    (getActiveMintKeysetLocal stored walletUnit = .error .noActiveKeyset ↔
      activeLocalKeysets stored walletUnit = []) ∧
    (∀ r, getActiveMintKeysetLocal stored walletUnit = .ok r →
      r ∈ activeLocalKeysets stored walletUnit ∧
      (∀ k ∈ activeLocalKeysets stored walletUnit,
        r.input_fee_ppk ≤ k.input_fee_ppk) ∧
      (activeLocalKeysets stored walletUnit).find?
        (fun k => k.input_fee_ppk == r.input_fee_ppk) = some r) := by
  obtain ⟨l, hl⟩ : ∃ l, activeLocalKeysets stored walletUnit = l := ⟨_, rfl⟩
  cases l with
  | nil =>
    constructor
    · constructor
      · intro _
        exact hl
      · intro _
        simp [getActiveMintKeysetLocal, hl, minByFee]
    · intro r hr
      simp [getActiveMintKeysetLocal, hl, minByFee] at hr
  | cons a as =>
    constructor
    · constructor
      · intro he
        simp [getActiveMintKeysetLocal, hl, minByFee] at he
      · intro he
        rw [hl] at he
        simp at he
    · intro r hr
      simp only [getActiveMintKeysetLocal, hl, minByFee, Except.ok.injEq] at hr
      subst hr
      refine ⟨?_, ?_, ?_⟩
      · rw [hl]
        exact minByFeeAux_mem as a
      · intro k hk
        rw [hl] at hk
        exact minByFeeAux_le as a k hk
      · rw [hl]
        exact minByFeeAux_first as a
/-- Witness: in a two-keyset store where both actives share the lowest
fee, the keyset returned is the first one attaining the minimum. -/
theorem active_keyset_lowest_fee_first_witness :
    (activeLocalKeysets
        (some [{ id := 2, active := true, unit := CurrencyUnit.sat, input_fee_ppk := 5 },
               { id := 1, active := true, unit := CurrencyUnit.sat, input_fee_ppk := 5 }])
        CurrencyUnit.sat).find?
      (fun k => k.input_fee_ppk == 5) =
      some { id := 2, active := true, unit := CurrencyUnit.sat, input_fee_ppk := 5 } :=
  ((active_keyset_lowest_fee_first
      (some [{ id := 2, active := true, unit := CurrencyUnit.sat, input_fee_ppk := 5 },
             { id := 1, active := true, unit := CurrencyUnit.sat, input_fee_ppk := 5 }])
      CurrencyUnit.sat).2
    { id := 2, active := true, unit := CurrencyUnit.sat, input_fee_ppk := 5 } rfl).2.2

/-- A batch derived at `count` occupies exactly the counter values
`count, count+1, …, count+n−1`, one per split denomination. -/
lemma fromXpriv_indices (keysetId count amount : Nat) :
    (PreMintSecrets.fromXpriv keysetId count amount).indices =
      List.range' count (powSplit amount).length := by
  simp only [PreMintSecrets.fromXpriv, PreMintSecrets.indices, List.map_map]
  rw [List.range'_eq_map_range]
  rfl

/-- Removing quotes never touches the derivation history. -/
lemma foldl_remove_deriveLog (ids : List String) :
    ∀ s : LocalStore,
      (ids.foldl (fun st qid => st.removeMintQuote qid) s).deriveLog = s.deriveLog := by
  induction ids with
  | nil => intro s; rfl
  | cons i is ih =>
    intro s
    rw [List.foldl_cons, ih]
    rfl

/-- Every derive event the `mint_tokens_for_pubkey` loop appends records
a counter atomically advanced by `n` with the batch occupying exactly
`[newCounter − n, newCounter)`. -/
lemma mintTokensForPubkeyLoop_deriveLog
    (walletUnit : CurrencyUnit) (mintUrl : String) (skp : Bool)
    (postMint : MintRequest → Except WalletError MintResponse)
    (items : List MintQuoteLookupItem) :
    ∀ (store : LocalStore) (acc : List Proof),
      (∀ e ∈ store.deriveLog,
        e.newCounter = e.oldCounter + e.n ∧
        e.premint.count = e.newCounter - e.n ∧
        e.premint.indices = List.range' (e.newCounter - e.n) e.n) →
      ∀ e ∈ (mintTokensForPubkeyLoop walletUnit mintUrl skp postMint
              items store acc).2.deriveLog,
        e.newCounter = e.oldCounter + e.n ∧
        e.premint.count = e.newCounter - e.n ∧
        e.premint.indices = List.range' (e.newCounter - e.n) e.n := by
  induction items with
  | nil =>
    intro store acc hinv e he
    exact hinv e he
  | cons item rest ih =>
    intro store acc hinv e he
    obtain ⟨ipk, iquote, imethod, iamount, iksid⟩ := item
    cases imethod with
    | bolt11 => exact ih store acc hinv e he
    | bolt12 => exact ih store acc hinv e he
    | miningShare =>
      simp only [mintTokensForPubkeyLoop, LocalStore.incrementKeysetCounter,
        LocalStore.logDerive, LocalStore.addMintQuote, LocalStore.addPremintSecrets,
        LocalStore.removeMintQuote, LocalStore.removePremintSecrets,
        LocalStore.addProofs] at he
      split at he
      · split at he
        · rcases List.mem_append.mp he with h | h
          · exact hinv e h
          · simp only [List.mem_singleton] at h
            subst h
            exact ⟨rfl, rfl, fromXpriv_indices _ _ _⟩
        · refine ih _ _ ?_ e he
          intro e' he'
          rcases List.mem_append.mp he' with h | h
          · exact hinv e' h
          · simp only [List.mem_singleton] at h
            subst h
            exact ⟨rfl, rfl, fromXpriv_indices _ _ _⟩
      · refine ih _ _ ?_ e he
        intro e' he'
        rcases List.mem_append.mp he' with h | h
        · exact hinv e' h
        · simp only [List.mem_singleton] at h
          subst h
          exact ⟨rfl, rfl, fromXpriv_indices _ _ _⟩

/-- Every derive event `mint_batch` appends records a counter atomically
advanced by `n` with the batch occupying `[newCounter − n, newCounter)`;
all other paths leave the derivation history unchanged. -/
lemma mintBatch_deriveLog (store : LocalStore) (client : BatchClient)
    (quoteIds : List String) (sc : Option Unit) :
    (∀ e ∈ store.deriveLog,
      e.newCounter = e.oldCounter + e.n ∧
      e.premint.count = e.newCounter - e.n ∧
      e.premint.indices = List.range' (e.newCounter - e.n) e.n) →
    ∀ e ∈ (mintBatch store client quoteIds sc).2.deriveLog,
      e.newCounter = e.oldCounter + e.n ∧
      e.premint.count = e.newCounter - e.n ∧
      e.premint.indices = List.range' (e.newCounter - e.n) e.n := by
  intro hinv e he
  cases sc with
  | some u =>
    simp only [mintBatch] at he
    repeat' split at he
    all_goals try simp only [LocalStore.addProofs, foldl_remove_deriveLog] at he
    all_goals exact hinv e he
  | none =>
    simp only [mintBatch, LocalStore.incrementKeysetCounter,
      LocalStore.logDerive] at he
    repeat' split at he
    all_goals try simp only [LocalStore.addProofs, foldl_remove_deriveLog] at he
    all_goals try exact hinv e he
    all_goals
      (rcases List.mem_append.mp he with h | h
       · exact hinv e h
       · simp only [List.mem_singleton] at h
         subst h
         exact ⟨rfl, rfl, fromXpriv_indices _ _ _⟩)

/-- C1: wherever the wallet derives a batch of pre-mint secrets
(`mint_mining_share_quote`, `mint_tokens_for_pubkey`, `mint_batch`), the
per-keyset counter is first atomically incremented by the number `n` of
secrets needed, derivation starts at `new_counter − n`, and the derived
batch occupies exactly the counter range `[new_counter − n,
new_counter)`.  Additionally, a successful `mint_mining_share_quote`
leaves the counter advanced by `n` and stores pre-mint secrets derived
from the pre-increment counter value. -/
theorem counter_incremented_before_derivation :
    (∀ (store : LocalStore) (walletUnit : CurrencyUnit) (mintUrl : String)
        (amount headerHash : Nat),
      (∀ e ∈ store.deriveLog,
        e.newCounter = e.oldCounter + e.n ∧
        e.premint.count = e.newCounter - e.n ∧
        e.premint.indices = List.range' (e.newCounter - e.n) e.n) →
      ∀ e ∈ (mintMiningShareQuote store walletUnit mintUrl amount headerHash).2.deriveLog,
        e.newCounter = e.oldCounter + e.n ∧
        e.premint.count = e.newCounter - e.n ∧
        e.premint.indices = List.range' (e.newCounter - e.n) e.n) ∧
    (∀ (store : LocalStore) (walletUnit : CurrencyUnit) (mintUrl : String)
        (amount headerHash : Nat) (ks : KeySetInfo)
        (req : MintQuoteMiningShareRequest) (s2 : LocalStore),
      getActiveMintKeysetLocal store.mintKeysets walletUnit = .ok ks →
      mintMiningShareQuote store walletUnit mintUrl amount headerHash = (.ok req, s2) →
      s2.counters ks.id = store.counters ks.id + (powSplit amount).length ∧
      s2.getPremintSecrets (toString headerHash) =
        some (PreMintSecrets.fromXpriv ks.id (store.counters ks.id) amount)) ∧
    (∀ (store : LocalStore) (walletUnit : CurrencyUnit) (mintUrl : String)
        (skp : Bool) (lookupResult : Except WalletError (List MintQuoteLookupItem))
        (postMint : MintRequest → Except WalletError MintResponse),
      (∀ e ∈ store.deriveLog,
        e.newCounter = e.oldCounter + e.n ∧
        e.premint.count = e.newCounter - e.n ∧
        e.premint.indices = List.range' (e.newCounter - e.n) e.n) →
      ∀ e ∈ (mintTokensForPubkey store walletUnit mintUrl skp
              lookupResult postMint).2.deriveLog,
        e.newCounter = e.oldCounter + e.n ∧
        e.premint.count = e.newCounter - e.n ∧
        e.premint.indices = List.range' (e.newCounter - e.n) e.n) ∧
    (∀ (store : LocalStore) (client : BatchClient) (quoteIds : List String)
        (sc : Option Unit),
      (∀ e ∈ store.deriveLog,
        e.newCounter = e.oldCounter + e.n ∧
        e.premint.count = e.newCounter - e.n ∧
        e.premint.indices = List.range' (e.newCounter - e.n) e.n) →
      ∀ e ∈ (mintBatch store client quoteIds sc).2.deriveLog,
        e.newCounter = e.oldCounter + e.n ∧
        e.premint.count = e.newCounter - e.n ∧
        e.premint.indices = List.range' (e.newCounter - e.n) e.n) := by
  refine ⟨?_, ?_, ?_, ?_⟩
  · intro store walletUnit mintUrl amount headerHash hinv e he
    simp only [mintMiningShareQuote] at he
    split at he
    · exact hinv e he
    · split at he
      · exact hinv e he
      · simp only [LocalStore.incrementKeysetCounter, LocalStore.logDerive,
          LocalStore.addMintQuote, LocalStore.addPremintSecrets] at he
        rcases List.mem_append.mp he with h | h
        · exact hinv e h
        · simp only [List.mem_singleton] at h
          subst h
          exact ⟨rfl, rfl, fromXpriv_indices _ _ _⟩
  · intro store walletUnit mintUrl amount headerHash ks req s2 hks hrun
    simp only [mintMiningShareQuote] at hrun
    split at hrun
    · simp at hrun
    · split at hrun
      · rename_i e1 heq
        rw [hks] at heq
        cases heq
      · rename_i activeKeyset heq
        rw [hks] at heq
        cases heq
        simp only [Prod.mk.injEq] at hrun
        obtain ⟨-, hs2⟩ := hrun
        subst hs2
        constructor
        · simp [LocalStore.addPremintSecrets, LocalStore.addMintQuote,
            LocalStore.logDerive, LocalStore.incrementKeysetCounter]
        · simp [LocalStore.addPremintSecrets, LocalStore.addMintQuote,
            LocalStore.logDerive, LocalStore.incrementKeysetCounter,
            LocalStore.getPremintSecrets, List.find?, Nat.add_sub_cancel]
  · intro store walletUnit mintUrl skp lookupResult postMint hinv e he
    cases lookupResult with
    | error err => exact hinv e he
    | ok items =>
      simp only [mintTokensForPubkey] at he
      split at he
      · exact hinv e he
      · exact mintTokensForPubkeyLoop_deriveLog walletUnit mintUrl skp postMint
          items store [] hinv e he
  · intro store client quoteIds sc hinv e he
    exact mintBatch_deriveLog store client quoteIds sc hinv e he

/-- Witness: a concrete successful `mint_mining_share_quote` (amount 5,
keyset 7, counter initially 0) advances the counter by the split length
and stores the batch derived at the old counter. -/
theorem counter_incremented_before_derivation_witness :
    (mintMiningShareQuote storeHash (.custom "HASH") "m" 5 3).2.counters 7 =
      storeHash.counters 7 + (powSplit 5).length ∧
    (mintMiningShareQuote storeHash (.custom "HASH") "m" 5 3).2.getPremintSecrets
        (toString (3 : Nat)) =
      some (PreMintSecrets.fromXpriv 7 (storeHash.counters 7) 5) :=
  counter_incremented_before_derivation.2.1 storeHash (.custom "HASH") "m" 5 3
    { id := 7, active := true, unit := .custom "HASH", input_fee_ppk := 0 }
    { amount := 5, unit := .custom "HASH", headerHash := 3, description := none,
      pubkey := none, keysetId := 7 }
    (mintMiningShareQuote storeHash (.custom "HASH") "m" 5 3).2
    rfl rfl
